import Mathlib

/-!
Shallow embedding of the SharedCanva room-synchronization engine
(`server/src/rooms.ts` and `server/src/socket-handlers.ts`).

JavaScript numbers appearing in stroke payloads are modelled as `JsNum`
(a finite rational, or a non-finite value standing for `NaN`/`±Infinity`);
dynamically absent or wrongly-typed fields are modelled with `Option`.
Sources of nondeterminism in the code (`Date.now()`, `randomUUID()`,
`Math.random` room codes, `bcrypt` hashing/verification, profile
randomization) enter the model as explicit parameters.
-/

namespace SharedCanva

/-- A JavaScript number: either a finite value or NaN/Infinity. -/
inductive JsNum where
  | fin (v : ℚ)
  | nonfinite
deriving Repr, DecidableEq

/-- Truthiness of an optional JS string (`undefined`/`null`/`""` are falsy). -/
def jsTruthyStr : Option String → Bool
  | some s => !(s == "")
  | none => false

/-- The JS expression `a || b` on two optional strings. -/
def jsOrStrOpt : Option String → Option String → Option String
  | some s, b => if s == "" then b else some s
  | none, b => b

/-- The JS expression `a || d` for an optional string with a string default. -/
def jsStrOr : Option String → String → String
  | some s, d => if s == "" then d else s
  | none, d => d

/-- Member status as in `rooms.ts` (`'online' | 'offline'`). -/
inductive MemberStatus where
  | online
  | offline
deriving Repr, DecidableEq

/-- A member record, as in the `Member` interface of `rooms.ts`. -/
structure Member where
  memberId : String
  socketId : String
  clientId : String
  displayName : String
  avatar : String
  isHost : Bool
  joinedAt : Nat
  status : MemberStatus
  lastSeen : Nat
deriving Repr, DecidableEq

/-- The broadcast-safe projection of a member (`MemberSnapshot` in `rooms.ts`). -/
structure MemberSnapshot where
  memberId : String
  clientId : String
  displayName : String
  avatar : String
  isHost : Bool
  joinedAt : Nat
  status : MemberStatus
deriving Repr, DecidableEq

/-- A raw stroke point as received on the wire: each coordinate is absent,
a finite number, or a non-finite number. -/
structure RawPoint where
  x : Option JsNum
  y : Option JsNum
  pressure : Option JsNum
deriving Repr, DecidableEq

/-- A raw stroke payload as received on the wire. `none` fields model
absent or non-string/non-number/non-array values; a `none` entry of
`points` models a falsy array element. -/
structure RawStroke where
  id : Option String
  tool : Option String
  color : Option String
  width : Option JsNum
  size : Option JsNum
  points : Option (List (Option RawPoint))
  createdAt : Option Nat
deriving Repr, DecidableEq

/-- A normalized point as produced by the `canvas:stroke` handler:
`x`/`y` are copied verbatim, `pressure` is defaulted to `0.5` unless it
is a finite number. -/
structure Point where
  x : Option JsNum
  y : Option JsNum
  pressure : JsNum
deriving Repr, DecidableEq

/-- A normalized stroke, the shape stored in `room.history` and broadcast. -/
structure Stroke where
  id : String
  tool : String
  color : String
  width : Option JsNum
  points : List Point
  createdAt : Nat
deriving Repr, DecidableEq

/-- A room, as in the `Room` interface of `rooms.ts`. -/
structure Room where
  code : String
  passwordHash : Option String
  members : List Member
  createdAt : Nat
  lastActive : Nat
  history : List Stroke
  canvasData : Option String
  diagramData : Option String
deriving Repr, DecidableEq

/-- The payload accepted by `RoomStore.upsertMember`; `isHost : Option Bool`
models the optional `isHost?: boolean` field. -/
structure MemberPayload where
  socketId : String
  clientId : String
  displayName : String
  avatar : String
  isHost : Option Bool
deriving Repr, DecidableEq

/-- A normalized profile, the output shape of `buildProfile`. -/
structure NormProfile where
  clientId : String
  displayName : String
  avatar : String
deriving Repr, DecidableEq

/-- The store's room table. `rooms.ts` keeps a `Map<string, Room>`;
we model it as a list in insertion order with pairwise-distinct codes
(enforced by the code-generation retry loop at creation). -/
def Store := List Room

/-- Lookup of `this.rooms.get(code)` for a possibly-absent key. -/
def getRoomOpt (store : List Room) (code : Option String) : Option Room :=
  match code with
  | none => none
  | some c => store.find? (fun r => r.code == c)

/-- Replacement of the (unique) room holding `code`; models in-place
mutation of the room object fetched from the `Map`. -/
def setRoom (store : List Room) (code : String) (room : Room) : List Room :=
  store.map (fun r => if r.code == code then room else r)

/-- The room literal built by `RoomStore.createRoom`. -/
def freshRoom (code : String) (passwordHash : Option String) (now : Nat) : Room :=
  { code := code
    passwordHash := passwordHash
    members := []
    createdAt := now
    lastActive := now
    history := []
    canvasData := none
    diagramData := none }

/-- `RoomStore.createRoom`: registers a fresh empty room under `code`
(the result of the collision-checked random draw) at `now`. -/
def createRoom (store : List Room) (code : String) (passwordHash : Option String)
    (now : Nat) : Room × List Room :=
  let room := freshRoom code passwordHash now
  (room, store ++ [room])

/-- Update of the member found by `room.members.find(...)` in
`upsertMember`: display fields refreshed, `isHost` only ever upgraded
(`bySocket.isHost = payload.isHost || bySocket.isHost`). -/
def updateExistingMember (m : Member) (payload : MemberPayload) (now : Nat) : Member :=
  { m with
    displayName := payload.displayName
    avatar := payload.avatar
    isHost :=
      match payload.isHost with
      | some b => b || m.isHost
      | none => m.isHost
    status := .online
    lastSeen := now }

/-- The fresh member built by `upsertMember` when no member matches the
socket id: `isHost` is the supplied boolean if present, else the room has
no current host. -/
def newMemberFrom (room : Room) (payload : MemberPayload) (memberId : String)
    (now : Nat) : Member :=
  let hasHost := room.members.any (fun m => m.isHost)
  { memberId := memberId
    socketId := payload.socketId
    clientId := payload.clientId
    displayName := payload.displayName
    avatar := payload.avatar
    isHost :=
      match payload.isHost with
      | some b => b
      | none => !hasHost
    joinedAt := now
    status := .online
    lastSeen := now }

/-- Replacement of the first member whose socket id matches, modelling the
in-place mutation of the object returned by `room.members.find(...)`. -/
def replaceFirstBySocket (ms : List Member) (sid : String) (updated : Member) :
    List Member :=
  match ms with
  | [] => []
  | m :: rest =>
    if m.socketId == sid then updated :: rest
    else m :: replaceFirstBySocket rest sid updated

/-- Room-level body of `RoomStore.upsertMember` (the room was found). -/
def upsertMemberRoom (room : Room) (payload : MemberPayload) (memberId : String)
    (now : Nat) : Member × Room :=
  match room.members.find? (fun m => m.socketId == payload.socketId) with
  | some bySocket =>
    let updated := updateExistingMember bySocket payload now
    (updated,
      { room with
        members := replaceFirstBySocket room.members payload.socketId updated
        lastActive := now })
  | none =>
    let member := newMemberFrom room payload memberId now
    (member, { room with members := room.members ++ [member], lastActive := now })

/-- `RoomStore.upsertMember`: `memberId` stands for the `randomUUID()` draw. -/
def upsertMember (store : List Room) (code : String) (payload : MemberPayload)
    (memberId : String) (now : Nat) : Option Member × List Room :=
  match store.find? (fun r => r.code == code) with
  | none => (none, store)
  | some room =>
    let result := upsertMemberRoom room payload memberId now
    (some result.1, setRoom store code result.2)

/-- The `reduce` in `removeMemberBySocketId` that selects the successor
host: strict comparison keeps the earlier element on a `joinedAt` tie. -/
def minByJoinedAt (seed : Member) (ms : List Member) : Member :=
  ms.foldl
    (fun candidate current =>
      if current.joinedAt < candidate.joinedAt then current else candidate)
    seed

/-- Host promotion after the host left: the reduce over the remaining
members (seeded with the first one) picks the successor, whose `isHost`
flag is then set on that member object. -/
def promoteNextHost (rest : List Member) : List Member :=
  match rest with
  | [] => []
  | seed :: _ =>
    let nextHost := minByJoinedAt seed rest
    let k := rest.findIdx (fun m => decide (m = nextHost))
    rest.set k { nextHost with isHost := true }

/-- Room-level body of `RoomStore.removeMemberBySocketId` (the room was
found): splice out the first socket match, promote a successor when the
removed member was host and members remain. -/
def removeMemberRoom (room : Room) (sid : String) (now : Nat) : Option Member × Room :=
  match room.members.findIdx? (fun m => m.socketId == sid) with
  | none => (none, room)
  | some i =>
    match room.members.get? i with
    | none => (none, room)
    | some removed =>
      let rest := room.members.eraseIdx i
      let members' :=
        if removed.isHost && decide (0 < rest.length) then promoteNextHost rest
        else rest
      (some removed, { room with members := members', lastActive := now })

/-- `RoomStore.removeMemberBySocketId`. -/
def removeMemberBySocketId (store : List Room) (code : String) (sid : String)
    (now : Nat) : Option Member × List Room :=
  match store.find? (fun r => r.code == code) with
  | none => (none, store)
  | some room =>
    let result := removeMemberRoom room sid now
    (result.1, setRoom store code result.2)

/-- The read-only projection used by `getMembersSnapshot`. -/
def toMemberSnapshot (m : Member) : MemberSnapshot :=
  { memberId := m.memberId
    clientId := m.clientId
    displayName := m.displayName
    avatar := m.avatar
    isHost := m.isHost
    joinedAt := m.joinedAt
    status := m.status }

/-- `RoomStore.getMembersSnapshot`: empty when the room is missing. -/
def getMembersSnapshot (store : List Room) (code : String) : List MemberSnapshot :=
  match store.find? (fun r => r.code == code) with
  | none => []
  | some room => room.members.map toMemberSnapshot

/-- `RoomStore.cleanupInactiveRooms`. -/
def cleanupInactiveRooms (store : List Room) (timeoutMs : Nat) (now : Nat) :
    List Room :=
  store.filter (fun r => !(decide (timeoutMs < now - r.lastActive)))

/-- The `isValidStroke` check of `socket-handlers.ts`: a falsy stroke,
non-string `color`, missing numeric `width`/`size`, or non-array `points`
fail; every points entry must be truthy with finite numeric `x`/`y`. -/
def isValidStroke : Option RawStroke → Bool
  | none => false
  | some s =>
    match s.color with
    | none => false
    | some _ =>
      let hasWidth := s.width.isSome
      let hasSize := s.size.isSome
      if !hasWidth && !hasSize then false
      else
        match s.points with
        | none => false
        | some pts =>
          pts.all (fun pt =>
            match pt with
            | none => false
            | some p =>
              (match p.x with | some (.fin _) => true | _ => false) &&
              (match p.y with | some (.fin _) => true | _ => false))

/-- Point normalization inside the `canvas:stroke` handler: coordinates
copied verbatim, `pressure` kept only when a finite number, else `0.5`. -/
def normalizePoint (p : Option RawPoint) : Point :=
  match p with
  | none => { x := none, y := none, pressure := .fin (1 / 2) }
  | some p =>
    { x := p.x
      y := p.y
      pressure :=
        match p.pressure with
        | some (.fin v) => .fin v
        | _ => .fin (1 / 2) }

/-- Stroke normalization in the `canvas:stroke` handler. `freshId` stands
for the `randomUUID().slice(0, 12)` draw; `now` for `Date.now()`. -/
def normalizeStroke (s : RawStroke) (freshId : String) (now : Nat) : Stroke :=
  { id :=
      match s.id with
      | some i => if 0 < i.trim.length then i else freshId
      | none => freshId
    tool := if s.tool == some "eraser" then "eraser" else "pen"
    color := s.color.getD ""
    width :=
      match s.width with
      | some j => some j
      | none => s.size
    points := (s.points.getD []).map normalizePoint
    createdAt :=
      match s.createdAt with
      | some t => if t = 0 then now else t
      | none => now }

/-- Structured-snapshot sniff used by the undo handler:
`typeof canvasData === "string" && canvasData.trim().startsWith("{")`. -/
def isStructuredSnapshot : Option String → Bool
  | some s => s.trim.startsWith "\x7b"
  | none => false

/-- An outbound server event. `roomMembers`, `canvasStroke` and
`canvasUndo` fan out to the whole room; `canvasSnapshot` and
`canvasHistory` are unicast to the socket named by `target`. -/
inductive OutEvent where
  | roomMembers (code : String) (members : List MemberSnapshot)
  | canvasStroke (code : String) (stroke : Stroke)
  | canvasUndo (code : String) (strokeId : String)
  | canvasSnapshot (target : String) (data : String)
  | canvasHistory (target : String) (history : List Stroke)
deriving Repr, DecidableEq

/-- The `emitMembers` helper of `socket-handlers.ts`. -/
def emitMembersEvent (store : List Room) (code : String) : OutEvent :=
  OutEvent.roomMembers code (getMembersSnapshot store code)

/-- An acknowledgment callback value for `create-room` / `join-room`. -/
inductive Ack where
  | failure (error : String)
  | ok (roomCode : String) (isHost : Bool) (members : List MemberSnapshot)
      (self : Option MemberSnapshot)
deriving Repr, DecidableEq

/-- The `create-room` handler. `hashFn` models `bcrypt.hash`; `code` the
collision-checked random room code; `memberId` the member's uuid; `prof`
the output of `buildProfile` on the caller's payload. -/
def createRoomHandler (store : List Room) (password : Option String)
    (prof : NormProfile) (sid : String) (hashFn : String → String)
    (code : String) (memberId : String) (now : Nat) :
    List Room × Ack × List OutEvent :=
  let passwordHash :=
    if jsTruthyStr password then some (hashFn (jsStrOr password "")) else none
  let created := createRoom store code passwordHash now
  let payload : MemberPayload :=
    { socketId := sid
      clientId := prof.clientId
      displayName := prof.displayName
      avatar := prof.avatar
      isHost := some true }
  let upserted := upsertMember created.2 created.1.code payload memberId now
  let store2 := upserted.2
  (store2,
    Ack.ok created.1.code true (getMembersSnapshot store2 created.1.code)
      (upserted.1.map toMemberSnapshot),
    [emitMembersEvent store2 created.1.code])

/-- Success body of the `join-room` handler (room found, password check
passed): upsert the caller with `isHost: false`, broadcast membership,
then unicast the snapshot (else the non-empty history) to the joiner. -/
def joinBody (store : List Room) (room : Room) (code : String)
    (prof : NormProfile) (sid : String) (memberId : String) (now : Nat) :
    List Room × Ack × List OutEvent :=
  let payload : MemberPayload :=
    { socketId := sid
      clientId := prof.clientId
      displayName := prof.displayName
      avatar := prof.avatar
      isHost := some false }
  let upserted := upsertMember store code payload memberId now
  let store' := upserted.2
  let recovery :=
    if jsTruthyStr room.canvasData then
      [OutEvent.canvasSnapshot sid (room.canvasData.getD "")]
    else if 0 < room.history.length then
      [OutEvent.canvasHistory sid room.history]
    else []
  (store',
    Ack.ok code ((upserted.1.map Member.isHost).getD false)
      (getMembersSnapshot store' code) (upserted.1.map toMemberSnapshot),
    emitMembersEvent store' code :: recovery)

/-- The `join-room` handler. `verify` models `bcrypt.compare`; the
password defaults to the empty string (`password || ""`). -/
def joinRoomHandler (store : List Room) (code : String) (password : Option String)
    (prof : NormProfile) (sid : String) (verify : String → String → Bool)
    (memberId : String) (now : Nat) : List Room × Ack × List OutEvent :=
  match store.find? (fun r => r.code == code) with
  | none => (store, Ack.failure "Room not found", [])
  | some room =>
    if jsTruthyStr room.passwordHash then
      if verify (jsStrOr password "") (room.passwordHash.getD "") then
        joinBody store room code prof sid memberId now
      else (store, Ack.failure "Invalid password", [])
    else joinBody store room code prof sid memberId now

/-- The `canvas:stroke` handler: resolve the room from `code || roomCode`,
validate, normalize, append to history with the 5000-entry cap, stamp
`lastActive`, and echo the normalized stroke to the whole room. -/
def strokeHandler (store : List Room) (codeParam roomCode : Option String)
    (stroke : Option RawStroke) (freshId : String) (now : Nat) :
    List Room × List OutEvent :=
  let code? := jsOrStrOpt codeParam roomCode
  if !(jsTruthyStr code?) then (store, [])
  else
    match getRoomOpt store code? with
    | none => (store, [])
    | some room =>
      if isValidStroke stroke then
        match stroke with
        | none => (store, [])
        | some s =>
          let normalized := normalizeStroke s freshId now
          let pushed := room.history ++ [normalized]
          let capped := if 5000 < pushed.length then pushed.tail else pushed
          let room' := { room with history := capped, lastActive := now }
          (setRoom store (jsStrOr code? "") room',
            [OutEvent.canvasStroke (jsStrOr code? "") normalized])
      else (store, [])

/-- The `canvas:undo` handler: drop the first history entry with the
given id (return silently when absent), clear a structured JSON snapshot,
stamp `lastActive`, and broadcast the undone id to the room. -/
def undoHandler (store : List Room) (codeParam roomCode : Option String)
    (strokeId : Option String) (now : Nat) : List Room × List OutEvent :=
  let code? := jsOrStrOpt codeParam roomCode
  if !(jsTruthyStr code?) || strokeId.isNone then (store, [])
  else
    let sid := strokeId.getD ""
    match getRoomOpt store code? with
    | none => (store, [])
    | some room =>
      match room.history.findIdx? (fun e => e.id == sid) with
      | none => (store, [])
      | some i =>
        let room' :=
          { room with
            history := room.history.eraseIdx i
            lastActive := now
            canvasData :=
              if isStructuredSnapshot room.canvasData then none
              else room.canvasData }
        (setRoom store (jsStrOr code? "") room',
          [OutEvent.canvasUndo (jsStrOr code? "") sid])

/-- The `canvas:request-snapshot` handler: unicast the stored snapshot if
truthy, else the non-empty history, else nothing. Store untouched. -/
def requestSnapshotHandler (store : List Room) (code roomCode : Option String)
    (sid : String) : List OutEvent :=
  match getRoomOpt store (jsOrStrOpt code roomCode) with
  | none => []
  | some room =>
    if jsTruthyStr room.canvasData then
      [OutEvent.canvasSnapshot sid (room.canvasData.getD "")]
    else if 0 < room.history.length then
      [OutEvent.canvasHistory sid room.history]
    else []

/-- The `canvas:save-snapshot` handler: accept only strings whose trimmed
form starts with a brace or `data:image/`, store the trimmed value, stamp
`lastActive`. -/
def saveSnapshotHandler (store : List Room) (code roomCode : Option String)
    (snapshot : Option String) (now : Nat) : List Room :=
  match getRoomOpt store (jsOrStrOpt code roomCode) with
  | none => store
  | some room =>
    match snapshot with
    | none => store
    | some snap =>
      let trimmed := snap.trim
      if trimmed.startsWith "\x7b" || trimmed.startsWith "data:image/" then
        setRoom store room.code
          { room with canvasData := some trimmed, lastActive := now }
      else store

/-- The `disconnect` handler: walk every room code, remove the socket's
member, and broadcast the updated member list of each room that actually
lost a member. -/
def disconnectHandler (store : List Room) (sid : String) (now : Nat) :
    List Room × List OutEvent :=
  (store.map (fun r => r.code)).foldl
    (fun acc code =>
      let result := removeMemberBySocketId acc.1 code sid now
      match result.1 with
      | some _ => (result.2, acc.2 ++ [emitMembersEvent result.2 code])
      | none => (result.2, acc.2))
    (store, [])

/-- Stores reachable from the empty store through the public operations.
Parameters of each constructor carry the nondeterministic inputs (ids,
codes, timestamps, hash functions); the side condition of `create` is the
uniqueness guaranteed by the code-generation retry loop. -/
inductive Reachable : List Room → Prop where
  | init : Reachable []
  | create (store : List Room) (password : Option String) (prof : NormProfile)
      (sid : String) (hashFn : String → String) (code : String)
      (memberId : String) (now : Nat) :
      Reachable store → (∀ r ∈ store, r.code ≠ code) →
      Reachable (createRoomHandler store password prof sid hashFn code memberId now).1
  | join (store : List Room) (code : String) (password : Option String)
      (prof : NormProfile) (sid : String) (verify : String → String → Bool)
      (memberId : String) (now : Nat) :
      Reachable store →
      Reachable (joinRoomHandler store code password prof sid verify memberId now).1
  | strokeEv (store : List Room) (codeParam roomCode : Option String)
      (stroke : Option RawStroke) (freshId : String) (now : Nat) :
      Reachable store →
      Reachable (strokeHandler store codeParam roomCode stroke freshId now).1
  | undoEv (store : List Room) (codeParam roomCode : Option String)
      (strokeId : Option String) (now : Nat) :
      Reachable store →
      Reachable (undoHandler store codeParam roomCode strokeId now).1
  | saveEv (store : List Room) (code roomCode : Option String)
      (snapshot : Option String) (now : Nat) :
      Reachable store →
      Reachable (saveSnapshotHandler store code roomCode snapshot now)
  | disconnectEv (store : List Room) (sid : String) (now : Nat) :
      Reachable store →
      Reachable (disconnectHandler store sid now).1

/-- Number of members of a room whose `isHost` flag is set. -/
def hostCount (r : Room) : Nat :=
  r.members.countP (fun m => m.isHost)

/-! Concrete instances used to witness and refute individual properties. -/

/-- A fresh room with no members, history or snapshot. -/
def testRoom (code : String) : Room :=
  { code := code
    passwordHash := none
    members := []
    createdAt := 0
    lastActive := 0
    history := []
    canvasData := none
    diagramData := none }

/-- A normalized profile used by the concrete scenarios. -/
def profA : NormProfile := { clientId := "client1", displayName := "Alice", avatar := "A" }

/-- A second normalized profile used by the concrete scenarios. -/
def profB : NormProfile := { clientId := "client2", displayName := "Bob", avatar := "B" }

/-- A store reached by: create a room (host joins), host disconnects,
a second user joins the now-empty room. -/
def c1Store : List Room :=
  (joinRoomHandler
    ((disconnectHandler
      ((createRoomHandler [] none profA "sock1" (fun _ => "") "roomx" "m1" 10).1)
      "sock1" 20).1)
    "roomx" none profB "sock2" (fun _ _ => true) "m2" 30).1

/-- A room with no members at all (hence no host). -/
def c2Room : Room := testRoom "c2room"

/-- The payload `join-room` sends to `upsertMember`: `isHost` explicitly `false`. -/
def c2Payload : MemberPayload :=
  { socketId := "sock9"
    clientId := "client9"
    displayName := "Joiner"
    avatar := "J"
    isHost := some false }

/-- A concrete stored stroke. -/
def strokeS1 : Stroke :=
  { id := "s1"
    tool := "pen"
    color := "#fff"
    width := some (.fin 4)
    points := []
    createdAt := 1 }

/-- A room holding exactly the stroke `s1`. -/
def c3Room : Room := { testRoom "c3room" with history := [strokeS1] }

/-- A raw stroke that is well-typed but has an empty points array.
Its `id` is absent so the handler assigns the fresh one. -/
def c4Stroke : RawStroke :=
  { id := none
    tool := some "pen"
    color := some "#fff"
    width := some (.fin 1)
    size := none
    points := some []
    createdAt := some 7 }

/-- An empty room addressed by the empty-points stroke scenario. -/
def c4Room : Room := testRoom "c4room"

/-- A valid raw stroke with one finite point. -/
def validRaw : RawStroke :=
  { id := some "new"
    tool := none
    color := some "#0f0"
    width := some (.fin 2)
    size := none
    points := some [some { x := some (.fin 1), y := some (.fin 2), pressure := none }]
    createdAt := some 3 }

/-- A room whose history already holds 5000 strokes. -/
def c5Room : Room :=
  { testRoom "c5room" with history := List.replicate 5000 strokeS1 }

/-- An empty-history room for the bounded-growth witness. -/
def c5RoomSmall : Room := testRoom "c5small"

/-- The departing host of the succession scenario (latest joiner). -/
def c6Host : Member :=
  { memberId := "m1"
    socketId := "sockA"
    clientId := "cA"
    displayName := "A"
    avatar := "x"
    isHost := true
    joinedAt := 5
    status := .online
    lastSeen := 0 }

/-- First non-host member; ties with `c6MemC` on `joinedAt`. -/
def c6MemB : Member :=
  { memberId := "m2"
    socketId := "sockB"
    clientId := "cB"
    displayName := "B"
    avatar := "x"
    isHost := false
    joinedAt := 3
    status := .online
    lastSeen := 0 }

/-- Second non-host member; ties with `c6MemB` on `joinedAt`. -/
def c6MemC : Member :=
  { memberId := "m3"
    socketId := "sockC"
    clientId := "cC"
    displayName := "C"
    avatar := "x"
    isHost := false
    joinedAt := 3
    status := .online
    lastSeen := 0 }

/-- The room whose host leaves in the succession scenario. -/
def c6Room : Room := { testRoom "c6room" with members := [c6Host, c6MemB, c6MemC] }

/-- A room carrying a saved structured snapshot. -/
def c7RoomSnap : Room :=
  { testRoom "c7snap" with canvasData := some "\x7bdata", history := [strokeS1] }

/-- A room with raw history only. -/
def c7RoomHist : Room := { testRoom "c7hist" with history := [strokeS1] }

/-- A room with neither snapshot nor history. -/
def c7RoomNone : Room := testRoom "c7none"

/-- A password-protected room (stored hash `"HASH"`). -/
def c8Room : Room := { testRoom "c8room" with passwordHash := some "HASH" }

/-- A hash verifier modelling `bcrypt.compare` for the stored hash `"HASH"`:
only the password `"secret"` verifies. -/
def c8Verify (password hash : String) : Bool :=
  password == "secret" && hash == "HASH"

/-- An empty room receiving the round-trip stroke. -/
def c9Room : Room := testRoom "c9room"

/-! Helper lemmas shared across the claim theorems. -/

/-- A truthy optional string is a non-empty `some`. -/
theorem jsTruthyStr_iff (o : Option String) :
    jsTruthyStr o = true ↔ ∃ c, o = some c ∧ c ≠ "" := by
  cases o with
  | none => simp [jsTruthyStr]
  | some s => simp [jsTruthyStr]

/-- A room found under a code carries that code. -/
theorem getRoomOpt_some_code {store : List Room} {c : String} {room : Room}
    (h : getRoomOpt store (some c) = some room) : room.code = c := by
  unfold getRoomOpt at h
  have hp := List.find?_some h
  simpa using hp

/-- Replacing the found room keeps it findable under the same code. -/
theorem find?_setRoom (store : List Room) (c : String) (room room' : Room)
    (h : store.find? (fun r => r.code == c) = some room) (hc : room'.code = c) :
    (setRoom store c room').find? (fun r => r.code == c) = some room' := by
  induction store with
  | nil => simp [List.find?] at h
  | cons a t ih =>
    cases hac : (a.code == c) with
    | true =>
      have hac' : a.code = c := by simpa using hac
      have hstep : setRoom (a :: t) c room' = room' :: setRoom t c room' := by
        simp [setRoom, hac']
      rw [hstep]
      have hp : (room'.code == c) = true := by simp [hc]
      simp [List.find?, hp]
    | false =>
      have hac' : ¬a.code = c := by simpa using hac
      have hstep : setRoom (a :: t) c room' = a :: setRoom t c room' := by
        simp [setRoom, hac']
      rw [hstep]
      simp only [List.find?, hac, cond_false] at h ⊢
      exact ih h

/-- Every room of an updated store is the replacement or an original room. -/
theorem mem_setRoom {store : List Room} {c : String} {room' x : Room}
    (h : x ∈ setRoom store c room') : x = room' ∨ x ∈ store := by
  unfold setRoom at h
  rcases List.mem_map.mp h with ⟨r, hr, hx⟩
  by_cases hrc : (r.code == c) = true
  · left
    rw [if_pos hrc] at hx
    exact hx.symm
  · right
    rw [if_neg hrc] at hx
    exact hx ▸ hr

/-- The capped append always keeps the new stroke as the last entry. -/
theorem getLast?_capped (l : List Stroke) (n : Stroke) :
    (if 5000 < (l ++ [n]).length then (l ++ [n]).tail else l ++ [n]).getLast? =
      some n := by
  by_cases hlen : 5000 < (l ++ [n]).length
  · rw [if_pos hlen]
    cases l with
    | nil => simp at hlen
    | cons x xs => simp [List.getLast?_concat]
  · rw [if_neg hlen]
    exact List.getLast?_concat _

/-- A history none of whose entries carries the id yields no find index. -/
theorem stroke_findIdx?_none (l : List Stroke) (sid : String)
    (h : ∀ e ∈ l, e.id ≠ sid) : l.findIdx? (fun e => e.id == sid) = none := by
  induction l with
  | nil => rfl
  | cons a t ih =>
    have ha : (a.id == sid) = false := by
      simpa using h a (List.mem_cons_self a t)
    rw [List.findIdx?_cons, ha]
    have ht := ih (fun e he => h e (List.mem_cons_of_mem a he))
    simp [ht]

/-! Claim theorems. -/

/-- C10: for a code naming no live room, `getMembersSnapshot` returns the
empty sequence, so the members broadcast built for such a code carries an
empty members array. -/
theorem c10_missing_room_snapshot_empty (store : List Room) (code : String)
    (h : store.find? (fun r => r.code == code) = none) :
    getMembersSnapshot store code = [] ∧
    emitMembersEvent store code = OutEvent.roomMembers code [] := by
  constructor
  · simp [getMembersSnapshot, h]
  · simp [emitMembersEvent, getMembersSnapshot, h]

/-- Witness for C10 at the empty store and the never-issued code `"zz"`. -/
theorem c10_witness :
    (([] : List Room).find? (fun r => r.code == "zz") = none) ∧
    (getMembersSnapshot [] "zz" = [] ∧
      emitMembersEvent [] "zz" = OutEvent.roomMembers "zz" []) := by
  exact ⟨rfl, c10_missing_room_snapshot_empty [] "zz" rfl⟩

/-- Counterexample for C3: undoing the absent id `"zz"` in a room whose
history holds only `"s1"` leaves the store unchanged and emits nothing —
in particular not the `canvas:undo` broadcast the claim asserts. -/
theorem c3_counterexample :
    undoHandler [c3Room] (some "c3room") none (some "zz") 50 = ([c3Room], []) ∧
    ([] : List OutEvent) ≠ [OutEvent.canvasUndo "c3room" "zz"] := by
  exact ⟨by decide, by decide⟩

/-- C3 (amended): an undo naming an id absent from the room's history is a
complete no-op — the store (history included) is unchanged and no
`canvas:undo` event is emitted, the handler returning before the broadcast. -/
theorem c3_undo_absent_id_silent (store : List Room)
    (codeParam roomCode : Option String) (sid : String) (now : Nat)
    (h : ∀ room, getRoomOpt store (jsOrStrOpt codeParam roomCode) = some room →
         ∀ e ∈ room.history, e.id ≠ sid) :
    undoHandler store codeParam roomCode (some sid) now = (store, []) := by
  cases ht : jsTruthyStr (jsOrStrOpt codeParam roomCode) with
  | false => simp [undoHandler, ht]
  | true =>
    cases hr : getRoomOpt store (jsOrStrOpt codeParam roomCode) with
    | none => simp [undoHandler, ht, hr]
    | some room =>
      have hidx := stroke_findIdx?_none room.history sid (h room hr)
      simp [undoHandler, ht, hr, hidx]

/-- Witness for C3's amended theorem: undoing `"zz"` in the concrete room. -/
theorem c3_witness :
    undoHandler [c3Room] (some "c3room") none (some "zz") 51 = ([c3Room], []) := by
  refine c3_undo_absent_id_silent [c3Room] (some "c3room") none "zz" 51 ?_
  intro room hr
  have hfound : getRoomOpt [c3Room] (jsOrStrOpt (some "c3room") none) = some c3Room := by
    decide
  rw [hfound] at hr
  rw [← Option.some.inj hr]
  decide

/-- Counterexample for C4: a stroke with string color, numeric width and an
empty points array passes `isValidStroke` (the per-point check is vacuous),
is appended to the room's history and is broadcast — not discarded. -/
theorem c4_counterexample :
    isValidStroke (some c4Stroke) = true ∧
    (strokeHandler [c4Room] (some "c4room") none (some c4Stroke) "fresh" 9).2 =
      [OutEvent.canvasStroke "c4room" (normalizeStroke c4Stroke "fresh" 9)] ∧
    ((strokeHandler [c4Room] (some "c4room") none (some c4Stroke) "fresh" 9).1).map
        (fun r => r.history) = [[normalizeStroke c4Stroke "fresh" 9]] := by
  exact ⟨by decide, by decide, by decide⟩

/-- C4 (amended): a stroke whose `points` is an empty array but whose
`color` is a string and whose `width` or `size` is numeric passes
validation, and the handler appends its normalized form to the room's
history and broadcasts it; validation does not require non-emptiness. -/
theorem c4_empty_points_accepted (s : RawStroke) (store : List Room)
    (codeParam roomCode : Option String) (freshId : String) (now : Nat) (room : Room)
    (hcolor : s.color.isSome = true)
    (hwidth : (s.width.isSome || s.size.isSome) = true)
    (hpts : s.points = some [])
    (hcode : jsTruthyStr (jsOrStrOpt codeParam roomCode) = true)
    (hroom : getRoomOpt store (jsOrStrOpt codeParam roomCode) = some room) :
    isValidStroke (some s) = true ∧
    (strokeHandler store codeParam roomCode (some s) freshId now).2 =
      [OutEvent.canvasStroke (jsStrOr (jsOrStrOpt codeParam roomCode) "")
        (normalizeStroke s freshId now)] ∧
    ∃ room',
      getRoomOpt (strokeHandler store codeParam roomCode (some s) freshId now).1
        (jsOrStrOpt codeParam roomCode) = some room' ∧
      room'.history.getLast? = some (normalizeStroke s freshId now) := by
  have hvalid : isValidStroke (some s) = true := by
    rcases Option.isSome_iff_exists.mp hcolor with ⟨col, hcol⟩
    have hws : (!s.width.isSome && !s.size.isSome) = false := by
      rw [← Bool.not_or, hwidth]
      rfl
    simp [isValidStroke, hcol, hpts, hws]
    have h2 := hwidth
    rw [Bool.or_eq_true] at h2
    rcases h2 with h2 | h2
    · exact Or.inl (Option.ne_none_iff_isSome.mpr h2)
    · exact Or.inr (Option.ne_none_iff_isSome.mpr h2)
  rcases (jsTruthyStr_iff _).mp hcode with ⟨c, hc, hcne⟩
  rw [hc] at hroom
  have hcodeT : jsTruthyStr (some c) = true := by simp [jsTruthyStr, hcne]
  have hrc : room.code = c := getRoomOpt_some_code hroom
  have hstr : jsStrOr (some c) "" = c := by simp [jsStrOr, hcne]
  have hrun : strokeHandler store codeParam roomCode (some s) freshId now =
      (setRoom store c
        { room with
          history :=
            if 5000 < (room.history ++ [normalizeStroke s freshId now]).length
            then (room.history ++ [normalizeStroke s freshId now]).tail
            else room.history ++ [normalizeStroke s freshId now]
          lastActive := now },
        [OutEvent.canvasStroke c (normalizeStroke s freshId now)]) := by
    simp [strokeHandler, hc, hcodeT, hroom, hvalid, hstr]
  refine ⟨hvalid, ?_, ?_⟩
  · rw [hc, hstr, hrun]
  · rw [hc, hrun]
    refine ⟨{ room with
        history :=
          if 5000 < (room.history ++ [normalizeStroke s freshId now]).length
          then (room.history ++ [normalizeStroke s freshId now]).tail
          else room.history ++ [normalizeStroke s freshId now]
        lastActive := now }, ?_, ?_⟩
    · unfold getRoomOpt at hroom ⊢
      exact find?_setRoom store c room _ hroom hrc
    · exact getLast?_capped room.history (normalizeStroke s freshId now)

/-- A found room belongs to the store. -/
theorem mem_of_getRoomOpt {store : List Room} {o : Option String} {room : Room}
    (h : getRoomOpt store o = some room) : room ∈ store := by
  cases o with
  | none => simp [getRoomOpt] at h
  | some c => exact List.mem_of_find?_eq_some h

/-- The capped append never exceeds 5000 entries. -/
theorem length_capped (l : List Stroke) (n : Stroke) (hl : l.length ≤ 5000) :
    (if 5000 < (l ++ [n]).length then (l ++ [n]).tail else l ++ [n]).length ≤ 5000 := by
  by_cases h : 5000 < (l ++ [n]).length
  · rw [if_pos h]
    simp only [List.length_tail, List.length_append, List.length_cons, List.length_nil]
    omega
  · rw [if_neg h]
    simp only [List.length_append, List.length_cons, List.length_nil] at h ⊢
    omega

/-- Dropping the head commutes with appending a final element on a
non-empty list. -/
theorem tail_append_singleton {l : List Stroke} (n : Stroke) (h : l ≠ []) :
    (l ++ [n]).tail = l.tail ++ [n] := by
  cases l with
  | nil => exact absurd rfl h
  | cons x xs => rfl

/-- One stroke event preserves the per-room 5000-entry history bound. -/
theorem strokeHandler_bound (store : List Room) (a b : Option String)
    (st : Option RawStroke) (freshId : String) (now : Nat)
    (hstore : ∀ r ∈ store, r.history.length ≤ 5000) :
    ∀ r ∈ (strokeHandler store a b st freshId now).1, r.history.length ≤ 5000 := by
  cases ht : jsTruthyStr (jsOrStrOpt a b) with
  | false =>
    have heq : (strokeHandler store a b st freshId now).1 = store := by
      simp [strokeHandler, ht]
    rw [heq]
    exact hstore
  | true =>
    cases hr : getRoomOpt store (jsOrStrOpt a b) with
    | none =>
      have heq : (strokeHandler store a b st freshId now).1 = store := by
        simp [strokeHandler, ht, hr]
      rw [heq]
      exact hstore
    | some room =>
      cases hv : isValidStroke st with
      | false =>
        have heq : (strokeHandler store a b st freshId now).1 = store := by
          simp [strokeHandler, ht, hr, hv]
        rw [heq]
        exact hstore
      | true =>
        cases st with
        | none => simp [isValidStroke] at hv
        | some s =>
          have heq : (strokeHandler store a b (some s) freshId now).1 =
              setRoom store (jsStrOr (jsOrStrOpt a b) "")
                { room with
                  history :=
                    if 5000 < (room.history ++ [normalizeStroke s freshId now]).length
                    then (room.history ++ [normalizeStroke s freshId now]).tail
                    else room.history ++ [normalizeStroke s freshId now]
                  lastActive := now } := by
            simp [strokeHandler, ht, hr, hv]
          rw [heq]
          intro r hrm
          rcases mem_setRoom hrm with hr' | hr'
          · rw [hr']
            exact length_capped room.history (normalizeStroke s freshId now)
              (hstore room (mem_of_getRoomOpt hr))
          · exact hstore r hr'

/-- C5: across any sequence of stroke events the history of every room
stays at 5000 entries or fewer, and an accepted stroke arriving at a
5000-entry history evicts the oldest entry and lands at the end. -/
theorem c5_history_cap :
    (∀ (store : List Room)
       (evs : List (Option String × Option String × Option RawStroke × String × Nat)),
      (∀ r ∈ store, r.history.length ≤ 5000) →
      ∀ r ∈ evs.foldl
          (fun st e => (strokeHandler st e.1 e.2.1 e.2.2.1 e.2.2.2.1 e.2.2.2.2).1)
          store,
        r.history.length ≤ 5000) ∧
    (∀ (store : List Room) (codeParam roomCode : Option String) (s : RawStroke)
       (freshId : String) (now : Nat) (room : Room),
      jsTruthyStr (jsOrStrOpt codeParam roomCode) = true →
      getRoomOpt store (jsOrStrOpt codeParam roomCode) = some room →
      isValidStroke (some s) = true →
      room.history.length = 5000 →
      strokeHandler store codeParam roomCode (some s) freshId now =
        (setRoom store (jsStrOr (jsOrStrOpt codeParam roomCode) "")
          { room with
            history := room.history.tail ++ [normalizeStroke s freshId now]
            lastActive := now },
         [OutEvent.canvasStroke (jsStrOr (jsOrStrOpt codeParam roomCode) "")
           (normalizeStroke s freshId now)])) := by
  constructor
  · intro store evs
    induction evs generalizing store with
    | nil => intro h r hr; exact h r hr
    | cons e t ih =>
      intro h
      exact ih _ (strokeHandler_bound store e.1 e.2.1 e.2.2.1 e.2.2.2.1 e.2.2.2.2 h)
  · intro store codeParam roomCode s freshId now room hcode hroom hvalid hlen
    rcases (jsTruthyStr_iff _).mp hcode with ⟨c, hc, hcne⟩
    rw [hc] at hroom
    have hcodeT : jsTruthyStr (some c) = true := by simp [jsTruthyStr, hcne]
    have hstr : jsStrOr (some c) "" = c := by simp [jsStrOr, hcne]
    have hne : room.history ≠ [] := by
      intro h0
      rw [h0] at hlen
      simp at hlen
    have hcap :
        (if 5000 < (room.history ++ [normalizeStroke s freshId now]).length
         then (room.history ++ [normalizeStroke s freshId now]).tail
         else room.history ++ [normalizeStroke s freshId now]) =
        room.history.tail ++ [normalizeStroke s freshId now] := by
      rw [if_pos (by simp [hlen])]
      exact tail_append_singleton _ hne
    have hrun : strokeHandler store codeParam roomCode (some s) freshId now =
        (setRoom store c
          { room with
            history :=
              if 5000 < (room.history ++ [normalizeStroke s freshId now]).length
              then (room.history ++ [normalizeStroke s freshId now]).tail
              else room.history ++ [normalizeStroke s freshId now]
            lastActive := now },
          [OutEvent.canvasStroke c (normalizeStroke s freshId now)]) := by
      simp [strokeHandler, hc, hcodeT, hroom, hvalid, hstr]
    rw [hc, hstr, hrun, hcap]

/-- Witness for C5 at a room whose history already holds 5000 strokes. -/
theorem c5_witness :
    c5Room.history.length = 5000 ∧
    strokeHandler [c5Room] (some "c5room") none (some validRaw) "f" 4 =
      (setRoom [c5Room] (jsStrOr (jsOrStrOpt (some "c5room") none) "")
        { c5Room with
          history := c5Room.history.tail ++ [normalizeStroke validRaw "f" 4]
          lastActive := 4 },
       [OutEvent.canvasStroke (jsStrOr (jsOrStrOpt (some "c5room") none) "")
         (normalizeStroke validRaw "f" 4)]) := by
  have hlen : c5Room.history.length = 5000 := by
    show (List.replicate 5000 strokeS1).length = 5000
    rw [List.length_replicate]
  have hroom : getRoomOpt [c5Room] (jsOrStrOpt (some "c5room") none) = some c5Room := by
    rfl
  exact ⟨hlen,
    c5_history_cap.2 [c5Room] (some "c5room") none validRaw "f" 4 c5Room
      (by decide) hroom (by decide) hlen⟩

/-- With a falsy snapshot and a non-empty history, `request-snapshot`
unicasts the history verbatim. -/
theorem requestSnapshot_history (store : List Room) (a b : Option String)
    (target c : String) (room : Room)
    (hc : jsOrStrOpt a b = some c)
    (hfound : store.find? (fun r => r.code == c) = some room)
    (hsnap : jsTruthyStr room.canvasData = false)
    (hlen : 0 < room.history.length) :
    requestSnapshotHandler store a b target =
      [OutEvent.canvasHistory target room.history] := by
  unfold requestSnapshotHandler
  rw [hc]
  simp only [getRoomOpt]
  rw [hfound]
  simp [hsnap, hlen]

/-- C9: an accepted stroke on a room without a saved snapshot is broadcast
in its normalized form, that same normalized stroke is the entry stored at
the end of the room's history, and a subsequent `request-snapshot` unicasts
that history verbatim — so the fetched entry is structurally equal to the
broadcast one. -/
theorem c9_round_trip (store : List Room) (codeParam roomCode : Option String)
    (s : RawStroke) (freshId : String) (now : Nat) (room : Room) (target : String)
    (hcode : jsTruthyStr (jsOrStrOpt codeParam roomCode) = true)
    (hroom : getRoomOpt store (jsOrStrOpt codeParam roomCode) = some room)
    (hvalid : isValidStroke (some s) = true)
    (hsnap : jsTruthyStr room.canvasData = false) :
    (strokeHandler store codeParam roomCode (some s) freshId now).2 =
      [OutEvent.canvasStroke (jsStrOr (jsOrStrOpt codeParam roomCode) "")
        (normalizeStroke s freshId now)] ∧
    ∃ room',
      getRoomOpt (strokeHandler store codeParam roomCode (some s) freshId now).1
        (jsOrStrOpt codeParam roomCode) = some room' ∧
      room'.history.getLast? = some (normalizeStroke s freshId now) ∧
      normalizeStroke s freshId now ∈ room'.history ∧
      requestSnapshotHandler
        (strokeHandler store codeParam roomCode (some s) freshId now).1
        codeParam roomCode target =
        [OutEvent.canvasHistory target room'.history] := by
  rcases (jsTruthyStr_iff _).mp hcode with ⟨c, hc, hcne⟩
  rw [hc] at hroom
  have hcodeT : jsTruthyStr (some c) = true := by simp [jsTruthyStr, hcne]
  have hrc : room.code = c := getRoomOpt_some_code hroom
  have hstr : jsStrOr (some c) "" = c := by simp [jsStrOr, hcne]
  have hrun : strokeHandler store codeParam roomCode (some s) freshId now =
      (setRoom store c
        { room with
          history :=
            if 5000 < (room.history ++ [normalizeStroke s freshId now]).length
            then (room.history ++ [normalizeStroke s freshId now]).tail
            else room.history ++ [normalizeStroke s freshId now]
          lastActive := now },
        [OutEvent.canvasStroke c (normalizeStroke s freshId now)]) := by
    simp [strokeHandler, hc, hcodeT, hroom, hvalid, hstr]
  have hlast := getLast?_capped room.history (normalizeStroke s freshId now)
  have hmem := List.mem_of_getLast?_eq_some hlast
  have hfound : getRoomOpt
      (setRoom store c
        { room with
          history :=
            if 5000 < (room.history ++ [normalizeStroke s freshId now]).length
            then (room.history ++ [normalizeStroke s freshId now]).tail
            else room.history ++ [normalizeStroke s freshId now]
          lastActive := now })
      (some c) =
      some
        { room with
          history :=
            if 5000 < (room.history ++ [normalizeStroke s freshId now]).length
            then (room.history ++ [normalizeStroke s freshId now]).tail
            else room.history ++ [normalizeStroke s freshId now]
          lastActive := now } := by
    unfold getRoomOpt at hroom ⊢
    exact find?_setRoom store c room _ hroom hrc
  refine ⟨by rw [hc, hstr, hrun], ?_⟩
  refine ⟨_, by rw [hc, hrun]; exact hfound, hlast, hmem, ?_⟩
  rw [hrun]
  exact requestSnapshot_history _ codeParam roomCode target c _ hc hfound hsnap
    (List.length_pos_of_mem hmem)

/-- Witness for C9: the concrete valid stroke submitted to the empty
snapshotless room rounds through `request-snapshot` unchanged. -/
theorem c9_witness :
    (strokeHandler [c9Room] (some "c9room") none (some validRaw) "f" 4).2 =
      [OutEvent.canvasStroke (jsStrOr (jsOrStrOpt (some "c9room") none) "")
        (normalizeStroke validRaw "f" 4)] ∧
    ∃ room',
      getRoomOpt (strokeHandler [c9Room] (some "c9room") none (some validRaw) "f" 4).1
        (jsOrStrOpt (some "c9room") none) = some room' ∧
      room'.history.getLast? = some (normalizeStroke validRaw "f" 4) ∧
      normalizeStroke validRaw "f" 4 ∈ room'.history ∧
      requestSnapshotHandler
        (strokeHandler [c9Room] (some "c9room") none (some validRaw) "f" 4).1
        (some "c9room") none "sock" =
        [OutEvent.canvasHistory "sock" room'.history] :=
  c9_round_trip [c9Room] (some "c9room") none validRaw "f" 4 c9Room "sock"
    (by decide) (by decide) (by decide) (by decide)

/-- Characterization of the host-succession reduce: it returns the seed
when the seed already minimizes `joinedAt`, else the earliest list element
strictly below the seed that minimizes `joinedAt`. -/
theorem minByJoinedAt_spec (l : List Member) (s : Member) :
    (minByJoinedAt s l = s ∧ ∀ m ∈ l, s.joinedAt ≤ m.joinedAt) ∨
    (∃ k, ∃ hk : k < l.length,
      minByJoinedAt s l = l.get ⟨k, hk⟩ ∧
      (l.get ⟨k, hk⟩).joinedAt < s.joinedAt ∧
      (∀ m ∈ l, (l.get ⟨k, hk⟩).joinedAt ≤ m.joinedAt) ∧
      ∀ j, ∀ hj : j < l.length, j < k →
        (l.get ⟨k, hk⟩).joinedAt < (l.get ⟨j, hj⟩).joinedAt) := by
  induction l generalizing s with
  | nil =>
    left
    exact ⟨rfl, by simp⟩
  | cons a t ih =>
    have hfold : minByJoinedAt s (a :: t) =
        minByJoinedAt (if a.joinedAt < s.joinedAt then a else s) t := rfl
    by_cases has : a.joinedAt < s.joinedAt
    · rw [if_pos has] at hfold
      rcases ih a with ⟨heq, hmin⟩ | ⟨k, hk, heq, hlt, hmin, hfirst⟩
      · right
        refine ⟨0, by simp, ?_, ?_, ?_, ?_⟩
        · rw [hfold, heq]
          rfl
        · exact has
        · intro m hm
          rcases List.mem_cons.mp hm with h | h
          · rw [h]
            exact Nat.le_refl _
          · exact hmin m h
        · intro j hj hj0
          exact absurd hj0 (Nat.not_lt_zero j)
      · right
        refine ⟨k + 1, Nat.succ_lt_succ hk, ?_, ?_, ?_, ?_⟩
        · rw [hfold, heq]
          rfl
        · exact lt_trans hlt has
        · intro m hm
          rcases List.mem_cons.mp hm with h | h
          · rw [h]
            exact le_of_lt hlt
          · exact hmin m h
        · intro j hj hjk
          cases j with
          | zero => exact hlt
          | succ j =>
            exact hfirst j (Nat.lt_of_succ_lt_succ hj) (Nat.lt_of_succ_lt_succ hjk)
    · rw [if_neg has] at hfold
      have hsa : s.joinedAt ≤ a.joinedAt := Nat.le_of_not_lt has
      rcases ih s with ⟨heq, hmin⟩ | ⟨k, hk, heq, hlt, hmin, hfirst⟩
      · left
        refine ⟨by rw [hfold, heq], ?_⟩
        intro m hm
        rcases List.mem_cons.mp hm with h | h
        · rw [h]
          exact hsa
        · exact hmin m h
      · right
        refine ⟨k + 1, Nat.succ_lt_succ hk, ?_, hlt, ?_, ?_⟩
        · rw [hfold, heq]
          rfl
        · intro m hm
          rcases List.mem_cons.mp hm with h | h
          · rw [h]
            exact le_of_lt (lt_of_lt_of_le hlt hsa)
          · exact hmin m h
        · intro j hj hjk
          cases j with
          | zero => exact lt_of_lt_of_le hlt hsa
          | succ j =>
            exact hfirst j (Nat.lt_of_succ_lt_succ hj) (Nat.lt_of_succ_lt_succ hjk)

/-- `findIdx` returns the position whose element satisfies the predicate
while all earlier ones fail it. -/
theorem findIdx_first (p : Member → Bool) (l : List Member) (k : Nat)
    (hk : k < l.length) (hpk : p (l.get ⟨k, hk⟩) = true)
    (hbefore : ∀ j, ∀ hj : j < l.length, j < k → p (l.get ⟨j, hj⟩) = false) :
    l.findIdx p = k := by
  induction l generalizing k with
  | nil => exact absurd hk (by simp)
  | cons a t ih =>
    cases k with
    | zero =>
      have hpa : p a = true := hpk
      rw [List.findIdx_cons, hpa]
      rfl
    | succ k =>
      have hpa : p a = false := hbefore 0 (by simp) (Nat.succ_pos k)
      rw [List.findIdx_cons, hpa]
      simp only [cond_false]
      have hres := ih k (Nat.lt_of_succ_lt_succ hk) hpk
        (fun j hj hjk => hbefore (j + 1) (Nat.succ_lt_succ hj) (Nat.succ_lt_succ hjk))
      rw [hres]

/-- The promotion step flips `isHost` on exactly the earliest remaining
member of minimal `joinedAt`. -/
theorem promoteNextHost_spec (rest : List Member) (hne : rest ≠ []) :
    ∃ k, ∃ hk : k < rest.length,
      promoteNextHost rest = rest.set k { rest.get ⟨k, hk⟩ with isHost := true } ∧
      (∀ m ∈ rest, (rest.get ⟨k, hk⟩).joinedAt ≤ m.joinedAt) ∧
      ∀ j, ∀ hj : j < rest.length, j < k →
        (rest.get ⟨k, hk⟩).joinedAt < (rest.get ⟨j, hj⟩).joinedAt := by
  cases rest with
  | nil => exact absurd rfl hne
  | cons seed rest0 =>
    rcases minByJoinedAt_spec (seed :: rest0) seed with ⟨heq, hmin⟩ |
      ⟨k, hk, heq, hlt, hmin, hfirst⟩
    · refine ⟨0, by simp, ?_, ?_, ?_⟩
      · simp only [promoteNextHost]
        rw [heq]
        have hidx : (seed :: rest0).findIdx (fun m => decide (m = seed)) = 0 := by
          rw [List.findIdx_cons]
          simp
        rw [hidx]
        rfl
      · exact hmin
      · intro j hj hj0
        exact absurd hj0 (Nat.not_lt_zero j)
    · refine ⟨k, hk, ?_, hmin, hfirst⟩
      simp only [promoteNextHost]
      rw [heq]
      have hidx : (seed :: rest0).findIdx
          (fun m => decide (m = (seed :: rest0).get ⟨k, hk⟩)) = k := by
        apply findIdx_first _ _ k hk
        · simp
        · intro j hj hjk
          simp only [decide_eq_false_iff_not]
          intro hcontra
          have hstrict := hfirst j hj hjk
          rw [hcontra] at hstrict
          exact lt_irrefl _ hstrict
      rw [hidx]

/-- C6: when `removeMemberBySocketId` removes the host while members
remain (none of them already host), exactly one remaining member ends up
with `isHost`, namely the earliest in list order among those of minimal
`joinedAt`; all other members are left untouched. -/
theorem c6_host_succession (room : Room) (sid : String) (now : Nat) (i : Nat)
    (hidx : room.members.findIdx? (fun m => m.socketId == sid) = some i)
    (hi : i < room.members.length)
    (hhost : (room.members.get ⟨i, hi⟩).isHost = true)
    (hrest : room.members.eraseIdx i ≠ [])
    (hnone : ∀ m ∈ room.members.eraseIdx i, m.isHost = false) :
    ∃ k, ∃ hk : k < (room.members.eraseIdx i).length,
      removeMemberRoom room sid now =
        (some (room.members.get ⟨i, hi⟩),
         { room with
           members := (room.members.eraseIdx i).set k
             { (room.members.eraseIdx i).get ⟨k, hk⟩ with isHost := true }
           lastActive := now }) ∧
      (∀ m ∈ room.members.eraseIdx i,
        ((room.members.eraseIdx i).get ⟨k, hk⟩).joinedAt ≤ m.joinedAt) ∧
      (∀ j, ∀ hj : j < (room.members.eraseIdx i).length, j < k →
        ((room.members.eraseIdx i).get ⟨k, hk⟩).joinedAt <
          ((room.members.eraseIdx i).get ⟨j, hj⟩).joinedAt) ∧
      ∀ j, ∀ hj : j < ((room.members.eraseIdx i).set k
          { (room.members.eraseIdx i).get ⟨k, hk⟩ with isHost := true }).length,
        (((room.members.eraseIdx i).set k
            { (room.members.eraseIdx i).get ⟨k, hk⟩ with isHost := true }).get
          ⟨j, hj⟩).isHost = true ↔ j = k := by
  obtain ⟨k, hk, hprom, hmin, hfirst⟩ :=
    promoteNextHost_spec (room.members.eraseIdx i) hrest
  have hlenpos : 0 < (room.members.eraseIdx i).length := List.length_pos.mpr hrest
  refine ⟨k, hk, ?_, hmin, hfirst, ?_⟩
  · have hcond : ((room.members.get ⟨i, hi⟩).isHost &&
        decide (0 < (room.members.eraseIdx i).length)) = true := by
      rw [hhost]
      simp [hlenpos]
    unfold removeMemberRoom
    simp only [hidx, List.get?_eq_get hi]
    rw [hcond, if_pos rfl, hprom]
  · intro j hj
    have hj' : j < (room.members.eraseIdx i).length := by
      simpa using hj
    by_cases hjk : j = k
    · subst hjk
      simp only [List.get_eq_getElem, List.getElem_set_self]
    · simp only [List.get_eq_getElem]
      rw [List.getElem_set_ne (fun h => hjk h.symm)]
      constructor
      · intro habs
        have hmem := List.getElem_mem hj'
        rw [hnone _ hmem] at habs
        exact absurd habs (by simp)
      · intro h
        exact absurd h hjk

/-- Pointwise preservation across a room replacement. -/
theorem setRoom_preserves (P : Room → Prop) (store : List Room) (c : String)
    (room' : Room) (hstore : ∀ r ∈ store, P r) (hroom : P room') :
    ∀ r ∈ setRoom store c room', P r := by
  intro r hr
  rcases mem_setRoom hr with h | h
  · rw [h]
    exact hroom
  · exact hstore r h

/-- Strong membership in an updated store: an element either is the
replacement or is an untouched original with a different code. -/
theorem mem_setRoom_strong {store : List Room} {c : String} {room' x : Room}
    (h : x ∈ setRoom store c room') :
    x = room' ∨ (x ∈ store ∧ (x.code == c) = false) := by
  unfold setRoom at h
  rcases List.mem_map.mp h with ⟨r, hr, hx⟩
  by_cases hrc : (r.code == c) = true
  · left
    rw [if_pos hrc] at hx
    exact hx.symm
  · right
    rw [if_neg hrc] at hx
    subst hx
    exact ⟨hr, by simpa using hrc⟩

/-- Searching an appended list when the first part yields nothing. -/
theorem find?_append_of_none {p : Room → Bool} (l1 l2 : List Room)
    (h : l1.find? p = none) : (l1 ++ l2).find? p = l2.find? p := by
  induction l1 with
  | nil => rfl
  | cons a t ih =>
    cases hpa : p a with
    | true =>
      simp only [List.find?, hpa] at h
      exact Option.noConfusion h
    | false =>
      simp only [List.find?, hpa, cond_false] at h
      simp only [List.cons_append, List.find?, hpa, cond_false]
      exact ih h

/-- `upsertMember` never touches a room's `canvasData`. -/
theorem upsertMemberRoom_canvasData (room : Room) (payload : MemberPayload)
    (memberId : String) (now : Nat) :
    (upsertMemberRoom room payload memberId now).2.canvasData = room.canvasData := by
  unfold upsertMemberRoom
  cases room.members.find? (fun m => m.socketId == payload.socketId) <;> rfl

/-- `removeMemberBySocketId` never touches a room's `canvasData`. -/
theorem removeMemberRoom_canvasData (room : Room) (sid : String) (now : Nat) :
    (removeMemberRoom room sid now).2.canvasData = room.canvasData := by
  cases hidx : room.members.findIdx? (fun m => m.socketId == sid) with
  | none =>
    unfold removeMemberRoom
    simp only [hidx]
  | some i =>
    cases hget : room.members.get? i with
    | none =>
      unfold removeMemberRoom
      simp only [hidx, hget]
    | some removed =>
      unfold removeMemberRoom
      simp only [hidx, hget]

/-- Upserting into a freshly appended room with an unoccupied code only
rewrites that room; every other room of the store is untouched. -/
theorem upsert_append_mem (store : List Room) (nr : Room) (payload : MemberPayload)
    (memberId : String) (now : Nat)
    (hfreshb : ∀ r ∈ store, (r.code == nr.code) = false) :
    ∀ r ∈ (upsertMember (store ++ [nr]) nr.code payload memberId now).2,
      r ∈ store ∨ r = (upsertMemberRoom nr payload memberId now).2 := by
  have hfresh2 : store.find? (fun r => r.code == nr.code) = none := by
    rw [List.find?_eq_none]
    intro a ha
    simp [hfreshb a ha]
  have hone : ([nr] : List Room).find? (fun r => r.code == nr.code) = some nr := by
    simp [List.find?]
  unfold upsertMember
  rw [find?_append_of_none _ _ hfresh2, hone]
  intro r hr
  rcases mem_setRoom_strong hr with h | ⟨hmem, hne⟩
  · right
    exact h
  · rcases List.mem_append.mp hmem with h2 | h2
    · left
      exact h2
    · rw [List.mem_singleton.mp h2] at hne
      simp at hne

/-- The store produced by `create-room` is the original store plus one new
room holding exactly one member, the host, and no canvas data. -/
theorem createRoomHandler_mem (store : List Room) (password : Option String)
    (prof : NormProfile) (sid : String) (hashFn : String → String) (code : String)
    (memberId : String) (now : Nat)
    (hfresh : ∀ r ∈ store, r.code ≠ code) :
    ∀ r ∈ (createRoomHandler store password prof sid hashFn code memberId now).1,
      r ∈ store ∨ (hostCount r = 1 ∧ r.canvasData = none) := by
  intro r hr
  have hfreshb : ∀ x ∈ store,
      (x.code == (freshRoom code
        (if jsTruthyStr password then some (hashFn (jsStrOr password "")) else none)
        now).code) = false := by
    intro x hx
    simp [freshRoom, hfresh x hx]
  have hr2 : r ∈ (upsertMember
      (store ++ [freshRoom code
        (if jsTruthyStr password then some (hashFn (jsStrOr password "")) else none) now])
      (freshRoom code
        (if jsTruthyStr password then some (hashFn (jsStrOr password "")) else none)
        now).code
      { socketId := sid
        clientId := prof.clientId
        displayName := prof.displayName
        avatar := prof.avatar
        isHost := some true } memberId now).2 := hr
  rcases upsert_append_mem _ _ _ _ _ hfreshb r hr2 with h | h
  · left
    exact h
  · right
    rw [h]
    constructor
    · simp [upsertMemberRoom, freshRoom, List.find?, hostCount, newMemberFrom]
    · simp [upsertMemberRoom, freshRoom, List.find?]

/-- The store produced by `join-room` is the original store with at most
one room rewritten through `upsertMember` with an `isHost: false` payload. -/
theorem joinRoomHandler_mem (store : List Room) (code : String)
    (password : Option String) (prof : NormProfile) (sid : String)
    (verify : String → String → Bool) (memberId : String) (now : Nat) :
    ∀ r ∈ (joinRoomHandler store code password prof sid verify memberId now).1,
      r ∈ store ∨
      ∃ room, room ∈ store ∧
        r = (upsertMemberRoom room
          { socketId := sid
            clientId := prof.clientId
            displayName := prof.displayName
            avatar := prof.avatar
            isHost := some false } memberId now).2 := by
  have hbody : ∀ room, store.find? (fun x => x.code == code) = some room →
      ∀ r ∈ (joinBody store room code prof sid memberId now).1,
        r ∈ store ∨
        ∃ room2, room2 ∈ store ∧
          r = (upsertMemberRoom room2
            { socketId := sid
              clientId := prof.clientId
              displayName := prof.displayName
              avatar := prof.avatar
              isHost := some false } memberId now).2 := by
    intro room hfind r hr
    have hr2 : r ∈ (upsertMember store code
        { socketId := sid
          clientId := prof.clientId
          displayName := prof.displayName
          avatar := prof.avatar
          isHost := some false } memberId now).2 := hr
    unfold upsertMember at hr2
    rw [hfind] at hr2
    rcases mem_setRoom hr2 with h | h
    · right
      exact ⟨room, List.mem_of_find?_eq_some hfind, h⟩
    · left
      exact h
  cases hfind : store.find? (fun x => x.code == code) with
  | none =>
    have heq : (joinRoomHandler store code password prof sid verify memberId now).1 =
        store := by
      simp [joinRoomHandler, hfind]
    rw [heq]
    intro r hr
    exact Or.inl hr
  | some room =>
    cases hpw : jsTruthyStr room.passwordHash with
    | false =>
      have heq : (joinRoomHandler store code password prof sid verify memberId now).1 =
          (joinBody store room code prof sid memberId now).1 := by
        simp [joinRoomHandler, hfind, hpw]
      rw [heq]
      exact hbody room hfind
    | true =>
      cases hv : verify (jsStrOr password "") (room.passwordHash.getD "") with
      | false =>
        have heq : (joinRoomHandler store code password prof sid verify memberId now).1 =
            store := by
          simp [joinRoomHandler, hfind, hpw, hv]
        rw [heq]
        intro r hr
        exact Or.inl hr
      | true =>
        have heq : (joinRoomHandler store code password prof sid verify memberId now).1 =
            (joinBody store room code prof sid memberId now).1 := by
          simp [joinRoomHandler, hfind, hpw, hv]
        rw [heq]
        exact hbody room hfind

/-- The store produced by a stroke event is the original store with at
most one room rewritten, its members and canvas data untouched. -/
theorem strokeHandler_mem (store : List Room) (a b : Option String)
    (st : Option RawStroke) (freshId : String) (now : Nat) :
    ∀ r ∈ (strokeHandler store a b st freshId now).1,
      r ∈ store ∨
      ∃ room, room ∈ store ∧ r.members = room.members ∧
        r.canvasData = room.canvasData := by
  cases ht : jsTruthyStr (jsOrStrOpt a b) with
  | false =>
    have heq : (strokeHandler store a b st freshId now).1 = store := by
      simp [strokeHandler, ht]
    rw [heq]
    intro r hr
    exact Or.inl hr
  | true =>
    cases hr : getRoomOpt store (jsOrStrOpt a b) with
    | none =>
      have heq : (strokeHandler store a b st freshId now).1 = store := by
        simp [strokeHandler, ht, hr]
      rw [heq]
      intro r hrm
      exact Or.inl hrm
    | some room =>
      cases hv : isValidStroke st with
      | false =>
        have heq : (strokeHandler store a b st freshId now).1 = store := by
          simp [strokeHandler, ht, hr, hv]
        rw [heq]
        intro r hrm
        exact Or.inl hrm
      | true =>
        cases st with
        | none => simp [isValidStroke] at hv
        | some s =>
          have heq : (strokeHandler store a b (some s) freshId now).1 =
              setRoom store (jsStrOr (jsOrStrOpt a b) "")
                { room with
                  history :=
                    if 5000 < (room.history ++ [normalizeStroke s freshId now]).length
                    then (room.history ++ [normalizeStroke s freshId now]).tail
                    else room.history ++ [normalizeStroke s freshId now]
                  lastActive := now } := by
            simp [strokeHandler, ht, hr, hv]
          rw [heq]
          intro r hrm
          rcases mem_setRoom hrm with h | h
          · right
            exact ⟨room, mem_of_getRoomOpt hr, by rw [h], by rw [h]⟩
          · left
            exact h

/-- The store produced by an undo event is the original store with at most
one room rewritten, its members untouched and its canvas data either
untouched or cleared. -/
theorem undoHandler_mem (store : List Room) (a b : Option String)
    (strokeId : Option String) (now : Nat) :
    ∀ r ∈ (undoHandler store a b strokeId now).1,
      r ∈ store ∨
      ∃ room, room ∈ store ∧ r.members = room.members ∧
        (r.canvasData = room.canvasData ∨ r.canvasData = none) := by
  cases hg : (!(jsTruthyStr (jsOrStrOpt a b)) || strokeId.isNone) with
  | true =>
    have heq : (undoHandler store a b strokeId now).1 = store := by
      simp only [undoHandler]
      rw [hg, if_pos rfl]
    rw [heq]
    intro r hr
    exact Or.inl hr
  | false =>
    cases hr : getRoomOpt store (jsOrStrOpt a b) with
    | none =>
      have heq : (undoHandler store a b strokeId now).1 = store := by
        simp only [undoHandler]
        rw [hg, if_neg (by simp)]
        simp [hr]
      rw [heq]
      intro r hrm
      exact Or.inl hrm
    | some room =>
      cases hidx : room.history.findIdx? (fun e => e.id == strokeId.getD "") with
      | none =>
        have heq : (undoHandler store a b strokeId now).1 = store := by
          simp only [undoHandler]
          rw [hg, if_neg (by simp)]
          simp [hr, hidx]
        rw [heq]
        intro r hrm
        exact Or.inl hrm
      | some i =>
        have heq : (undoHandler store a b strokeId now).1 =
            setRoom store (jsStrOr (jsOrStrOpt a b) "")
              { room with
                history := room.history.eraseIdx i
                lastActive := now
                canvasData :=
                  if isStructuredSnapshot room.canvasData then none
                  else room.canvasData } := by
          simp only [undoHandler]
          rw [hg, if_neg (by simp)]
          simp [hr, hidx]
        rw [heq]
        intro r hrm
        rcases mem_setRoom hrm with h | h
        · right
          refine ⟨room, mem_of_getRoomOpt hr, by rw [h], ?_⟩
          rw [h]
          by_cases hs : isStructuredSnapshot room.canvasData = true
          · right
            simp [hs]
          · left
            simp [hs]
        · left
          exact h

/-- The store produced by a save-snapshot event is the original store with
at most one room rewritten, its members untouched and its canvas data set
to a trimmed string opening with a brace or `data:image/`. -/
theorem saveSnapshotHandler_mem (store : List Room) (a b : Option String)
    (snapshot : Option String) (now : Nat) :
    ∀ r ∈ saveSnapshotHandler store a b snapshot now,
      r ∈ store ∨
      ∃ room trimmed, room ∈ store ∧ r.members = room.members ∧
        r.canvasData = some trimmed ∧
        (trimmed.startsWith "\x7b" || trimmed.startsWith "data:image/") = true := by
  cases hr : getRoomOpt store (jsOrStrOpt a b) with
  | none =>
    have heq : saveSnapshotHandler store a b snapshot now = store := by
      simp [saveSnapshotHandler, hr]
    rw [heq]
    intro r hrm
    exact Or.inl hrm
  | some room =>
    cases snapshot with
    | none =>
      have heq : saveSnapshotHandler store a b none now = store := by
        simp [saveSnapshotHandler, hr]
      rw [heq]
      intro r hrm
      exact Or.inl hrm
    | some snap =>
      cases hcond : (snap.trim.startsWith "\x7b" ||
          snap.trim.startsWith "data:image/") with
      | false =>
        have heq : saveSnapshotHandler store a b (some snap) now = store := by
          simp only [saveSnapshotHandler]
          rw [hr]
          simp only []
          rw [if_neg (by simp [hcond])]
        rw [heq]
        intro r hrm
        exact Or.inl hrm
      | true =>
        have heq : saveSnapshotHandler store a b (some snap) now =
            setRoom store room.code
              { room with canvasData := some snap.trim, lastActive := now } := by
          simp only [saveSnapshotHandler]
          rw [hr]
          simp only []
          rw [if_pos (by simp [hcond])]
        rw [heq]
        intro r hrm
        rcases mem_setRoom hrm with h | h
        · right
          exact ⟨room, snap.trim, mem_of_getRoomOpt hr, by rw [h], by rw [h], hcond⟩
        · left
          exact h

/-- The store-level remove preserves every pointwise room property closed
under the room-level remove. -/
theorem removeMemberBySocketId_preserves (P : Room → Prop)
    (hP : ∀ room sid now, P room → P (removeMemberRoom room sid now).2)
    (store : List Room) (code sid : String) (now : Nat)
    (h : ∀ r ∈ store, P r) :
    ∀ r ∈ (removeMemberBySocketId store code sid now).2, P r := by
  cases hf : store.find? (fun r => r.code == code) with
  | none =>
    have heq : (removeMemberBySocketId store code sid now).2 = store := by
      simp [removeMemberBySocketId, hf]
    rw [heq]
    exact h
  | some room =>
    have heq : (removeMemberBySocketId store code sid now).2 =
        setRoom store code (removeMemberRoom room sid now).2 := by
      simp [removeMemberBySocketId, hf]
    rw [heq]
    exact setRoom_preserves P store code _ h
      (hP room sid now (h room (List.mem_of_find?_eq_some hf)))

/-- The disconnect sweep preserves every pointwise room property closed
under the room-level remove. -/
theorem disconnectHandler_preserves (P : Room → Prop)
    (hP : ∀ room sid now, P room → P (removeMemberRoom room sid now).2)
    (store : List Room) (sid : String) (now : Nat)
    (h : ∀ r ∈ store, P r) :
    ∀ r ∈ (disconnectHandler store sid now).1, P r := by
  unfold disconnectHandler
  have hgen : ∀ (codes : List String) (acc : List Room × List OutEvent),
      (∀ r ∈ acc.1, P r) →
      ∀ r ∈ (codes.foldl
        (fun acc code =>
          let result := removeMemberBySocketId acc.1 code sid now
          match result.1 with
          | some _ => (result.2, acc.2 ++ [emitMembersEvent result.2 code])
          | none => (result.2, acc.2)) acc).1, P r := by
    intro codes
    induction codes with
    | nil => intro acc hacc; exact hacc
    | cons cd t ih =>
      intro acc hacc
      rw [List.foldl_cons]
      apply ih
      have hnext := removeMemberBySocketId_preserves P hP acc.1 cd sid now hacc
      show ∀ r ∈ (match (removeMemberBySocketId acc.1 cd sid now).1 with
          | some _ => ((removeMemberBySocketId acc.1 cd sid now).2,
              acc.2 ++ [emitMembersEvent (removeMemberBySocketId acc.1 cd sid now).2 cd])
          | none => ((removeMemberBySocketId acc.1 cd sid now).2, acc.2)).1, P r
      cases (removeMemberBySocketId acc.1 cd sid now).1 with
      | some m => exact hnext
      | none => exact hnext
  exact hgen _ (store, []) h

/-- Witness for C6: removing the host (latest joiner, socket `"sockA"`)
promotes the earlier of the two members tied on `joinedAt`. -/
theorem c6_witness :
    ∃ k, ∃ hk : k < (c6Room.members.eraseIdx 0).length,
      removeMemberRoom c6Room "sockA" 9 =
        (some (c6Room.members.get ⟨0, by decide⟩),
         { c6Room with
           members := (c6Room.members.eraseIdx 0).set k
             { (c6Room.members.eraseIdx 0).get ⟨k, hk⟩ with isHost := true }
           lastActive := 9 }) ∧
      (∀ m ∈ c6Room.members.eraseIdx 0,
        ((c6Room.members.eraseIdx 0).get ⟨k, hk⟩).joinedAt ≤ m.joinedAt) ∧
      (∀ j, ∀ hj : j < (c6Room.members.eraseIdx 0).length, j < k →
        ((c6Room.members.eraseIdx 0).get ⟨k, hk⟩).joinedAt <
          ((c6Room.members.eraseIdx 0).get ⟨j, hj⟩).joinedAt) ∧
      ∀ j, ∀ hj : j < ((c6Room.members.eraseIdx 0).set k
          { (c6Room.members.eraseIdx 0).get ⟨k, hk⟩ with isHost := true }).length,
        (((c6Room.members.eraseIdx 0).set k
            { (c6Room.members.eraseIdx 0).get ⟨k, hk⟩ with isHost := true }).get
          ⟨j, hj⟩).isHost = true ↔ j = k :=
  c6_host_succession c6Room "sockA" 9 0 (by decide) (by decide) (by decide)
    (by decide) (by decide)

/-- Counting hosts across the replacement done by `upsertMember` on an
existing socket: unchanged whenever the replacement keeps the flag of the
member it replaces. -/
theorem replaceFirst_countP (ms : List Member) (sid : String) (updated : Member)
    (h : ∀ m, ms.find? (fun x => x.socketId == sid) = some m →
      updated.isHost = m.isHost) :
    (replaceFirstBySocket ms sid updated).countP (fun m => m.isHost) =
      ms.countP (fun m => m.isHost) := by
  induction ms with
  | nil => rfl
  | cons m rest ih =>
    cases hms : (m.socketId == sid) with
    | true =>
      have hfind : (m :: rest).find? (fun x => x.socketId == sid) = some m := by
        simp [List.find?, hms]
      have hflag := h m hfind
      simp only [replaceFirstBySocket, hms, if_true]
      rw [List.countP_cons, List.countP_cons, hflag]
    | false =>
      have hrec := ih (fun x hx => h x (by simp [List.find?, hms, hx]))
      simp only [replaceFirstBySocket, hms]
      rw [if_neg (by simp), List.countP_cons, List.countP_cons, hrec]

/-- Removing the entry at a valid index splits the host count. -/
theorem countP_eraseIdx (ms : List Member) (i : Nat) (m : Member)
    (h : ms.get? i = some m) :
    ms.countP (fun x => x.isHost) =
      (ms.eraseIdx i).countP (fun x => x.isHost) +
        (if m.isHost then 1 else 0) := by
  induction ms generalizing i with
  | nil => simp [List.get?] at h
  | cons a t ih =>
    cases i with
    | zero =>
      have : a = m := by simpa [List.get?] using h
      subst this
      simp [List.eraseIdx, List.countP_cons]
    | succ i =>
      have ht : t.get? i = some m := by simpa [List.get?] using h
      have := ih i ht
      simp only [List.eraseIdx, List.countP_cons]
      omega

/-- Setting one entry raises the host count by at most one. -/
theorem countP_set_le (ms : List Member) (k : Nat) (x : Member) :
    (ms.set k x).countP (fun m => m.isHost) ≤
      ms.countP (fun m => m.isHost) + 1 := by
  induction ms generalizing k with
  | nil => simp
  | cons a t ih =>
    cases k with
    | zero =>
      show List.countP (fun m => m.isHost) (x :: t) ≤ _
      rw [List.countP_cons, List.countP_cons]
      have hx : (if x.isHost = true then 1 else 0) ≤ 1 := by
        cases x.isHost <;> simp
      omega
    | succ k =>
      show List.countP (fun m => m.isHost) (a :: t.set k x) ≤ _
      rw [List.countP_cons, List.countP_cons]
      have := ih k
      omega

/-- `upsertMember` called with `isHost: false` (the `join-room` payload)
never changes a room's host count. -/
theorem hostCount_upsert_false (room : Room) (payload : MemberPayload)
    (memberId : String) (now : Nat) (hpay : payload.isHost = some false) :
    hostCount (upsertMemberRoom room payload memberId now).2 = hostCount room := by
  unfold upsertMemberRoom hostCount
  cases hfind : room.members.find? (fun m => m.socketId == payload.socketId) with
  | some bySocket =>
    simp only []
    apply replaceFirst_countP
    intro m hm
    rw [hfind] at hm
    rw [← Option.some.inj hm]
    simp [updateExistingMember, hpay]
  | none =>
    simp only []
    rw [List.countP_append]
    have : (newMemberFrom room payload memberId now).isHost = false := by
      simp [newMemberFrom, hpay]
    simp [List.countP_cons, this]

/-- `removeMemberBySocketId` keeps the host count at one or below. -/
theorem hostCount_remove (room : Room) (sid : String) (now : Nat)
    (h : hostCount room ≤ 1) :
    hostCount (removeMemberRoom room sid now).2 ≤ 1 := by
  cases hidx : room.members.findIdx? (fun m => m.socketId == sid) with
  | none =>
    have heq : removeMemberRoom room sid now = (none, room) := by
      unfold removeMemberRoom
      simp only [hidx]
    rw [heq]
    exact h
  | some i =>
    cases hget : room.members.get? i with
    | none =>
      have heq : removeMemberRoom room sid now = (none, room) := by
        unfold removeMemberRoom
        simp only [hidx, hget]
      rw [heq]
      exact h
    | some removed =>
      have heq : removeMemberRoom room sid now = (some removed,
          { room with
            members :=
              if (removed.isHost &&
                  decide (0 < (room.members.eraseIdx i).length)) = true
              then promoteNextHost (room.members.eraseIdx i)
              else room.members.eraseIdx i
            lastActive := now }) := by
        unfold removeMemberRoom
        simp only [hidx, hget]
      rw [heq]
      unfold hostCount at h ⊢
      simp only []
      have hsplit := countP_eraseIdx room.members i removed hget
      cases hhost : removed.isHost with
      | false =>
        have hsplit2 : List.countP (fun x => x.isHost) room.members =
            List.countP (fun x => x.isHost) (room.members.eraseIdx i) := by
          rw [hhost] at hsplit
          simpa using hsplit
        rw [Bool.false_and, if_neg (by simp)]
        omega
      | true =>
        have hrest0 : List.countP (fun x => x.isHost) (room.members.eraseIdx i) = 0 := by
          rw [hhost] at hsplit
          simp at hsplit
          omega
        rw [Bool.true_and]
        cases hlen : decide (0 < (room.members.eraseIdx i).length) with
        | false =>
          rw [if_neg (by simp)]
          omega
        | true =>
          rw [if_pos rfl]
          have hne : room.members.eraseIdx i ≠ [] :=
            List.length_pos.mp (of_decide_eq_true hlen)
          rcases promoteNextHost_spec _ hne with ⟨k, hk, hprom, hmin, hfirst⟩
          rw [hprom]
          have hle := countP_set_le (room.members.eraseIdx i) k
            { (room.members.eraseIdx i).get ⟨k, hk⟩ with isHost := true }
          omega

/-- Counterexample for C1: the reachable store built by create-room,
host disconnect, then join-room holds a room with one member and zero
hosts — `join-room` passes `isHost: false`, so the joiner of the emptied
room is not promoted. -/
theorem c1_counterexample :
    Reachable c1Store ∧
    c1Store.map (fun r => (r.members.length, hostCount r)) = [(1, 0)] := by
  constructor
  · exact Reachable.join _ "roomx" none profB "sock2" (fun _ _ => true) "m2" 30
      (Reachable.disconnectEv _ "sock1" 20
        (Reachable.create [] none profA "sock1" (fun _ => "") "roomx" "m1" 10
          Reachable.init (by simp)))
  · decide

/-- C1 (amended): in every store reachable through the public operations,
every room has at most one member whose `isHost` flag is true ("exactly
one" fails for a non-empty room: a joiner entering a previously emptied
room is created non-host). -/
theorem c1_at_most_one_host (store : List Room) (h : Reachable store) :
    ∀ r ∈ store, hostCount r ≤ 1 := by
  induction h with
  | init =>
    intro r hr
    exact absurd hr (List.not_mem_nil r)
  | create store password prof sid hashFn code memberId now hre hfresh ih =>
    intro r hr
    rcases createRoomHandler_mem store password prof sid hashFn code memberId now
        hfresh r hr with h1 | h1
    · exact ih r h1
    · exact le_of_eq h1.1
  | join store code password prof sid verify memberId now hre ih =>
    intro r hr
    rcases joinRoomHandler_mem store code password prof sid verify memberId now
        r hr with h1 | ⟨room, hmem, heq⟩
    · exact ih r h1
    · rw [heq, hostCount_upsert_false _ _ _ _ rfl]
      exact ih room hmem
  | strokeEv store codeParam roomCode stroke freshId now hre ih =>
    intro r hr
    rcases strokeHandler_mem store codeParam roomCode stroke freshId now r hr with
      h1 | ⟨room, hmem, hmembers, hcd⟩
    · exact ih r h1
    · unfold hostCount
      rw [hmembers]
      exact ih room hmem
  | undoEv store codeParam roomCode strokeId now hre ih =>
    intro r hr
    rcases undoHandler_mem store codeParam roomCode strokeId now r hr with
      h1 | ⟨room, hmem, hmembers, hcd⟩
    · exact ih r h1
    · unfold hostCount
      rw [hmembers]
      exact ih room hmem
  | saveEv store code roomCode snapshot now hre ih =>
    intro r hr
    rcases saveSnapshotHandler_mem store code roomCode snapshot now r hr with
      h1 | ⟨room, trimmed, hmem, hmembers, hcd, hpre⟩
    · exact ih r h1
    · unfold hostCount
      rw [hmembers]
      exact ih room hmem
  | disconnectEv store sid now hre ih =>
    exact disconnectHandler_preserves (fun r => hostCount r ≤ 1)
      (fun room sid2 now2 hc => hostCount_remove room sid2 now2 hc) store sid now ih

/-- Witness for C1's amended theorem on the concrete reachable store. -/
theorem c1_witness :
    Reachable c1Store ∧ ∀ r ∈ c1Store, hostCount r ≤ 1 := by
  have hre : Reachable c1Store :=
    Reachable.join _ "roomx" none profB "sock2" (fun _ _ => true) "m2" 30
      (Reachable.disconnectEv _ "sock1" 20
        (Reachable.create [] none profA "sock1" (fun _ => "") "roomx" "m1" 10
          Reachable.init (by simp)))
  exact ⟨hre, c1_at_most_one_host c1Store hre⟩

/-- C7: in every reachable store a room's `canvasData` is never the empty
string (so JS truthiness coincides with presence); `request-snapshot` on an
existing room unicasts exactly one of the stored snapshot (priority), the
non-empty raw history, or nothing; and a successful `join-room` emits the
membership broadcast followed by exactly that same recovery unicast. -/
theorem c7_snapshot_priority :
    (∀ store, Reachable store → ∀ r ∈ store, r.canvasData ≠ some "") ∧
    (∀ (store : List Room) (code roomCode : Option String) (sid : String)
       (room : Room),
      getRoomOpt store (jsOrStrOpt code roomCode) = some room →
      ((∀ d, room.canvasData = some d → d ≠ "" →
        requestSnapshotHandler store code roomCode sid =
          [OutEvent.canvasSnapshot sid d]) ∧
       (room.canvasData = none → room.history ≠ [] →
        requestSnapshotHandler store code roomCode sid =
          [OutEvent.canvasHistory sid room.history]) ∧
       (room.canvasData = none → room.history = [] →
        requestSnapshotHandler store code roomCode sid = []))) ∧
    (∀ (store : List Room) (code : String) (password : Option String)
       (prof : NormProfile) (sid : String) (verify : String → String → Bool)
       (memberId : String) (now : Nat) (room : Room),
      store.find? (fun r => r.code == code) = some room →
      (jsTruthyStr room.passwordHash = false ∨
        verify (jsStrOr password "") (room.passwordHash.getD "") = true) →
      ((∀ d, room.canvasData = some d → d ≠ "" →
        (joinRoomHandler store code password prof sid verify memberId now).2.2 =
          [emitMembersEvent
            (joinRoomHandler store code password prof sid verify memberId now).1 code,
           OutEvent.canvasSnapshot sid d]) ∧
       (room.canvasData = none → room.history ≠ [] →
        (joinRoomHandler store code password prof sid verify memberId now).2.2 =
          [emitMembersEvent
            (joinRoomHandler store code password prof sid verify memberId now).1 code,
           OutEvent.canvasHistory sid room.history]) ∧
       (room.canvasData = none → room.history = [] →
        (joinRoomHandler store code password prof sid verify memberId now).2.2 =
          [emitMembersEvent
            (joinRoomHandler store code password prof sid verify memberId now).1
            code]))) := by
  refine ⟨?_, ?_, ?_⟩
  · intro store h
    induction h with
    | init =>
      intro r hr
      exact absurd hr (List.not_mem_nil r)
    | create store password prof sid hashFn code memberId now hre hfresh ih =>
      intro r hr
      rcases createRoomHandler_mem store password prof sid hashFn code memberId now
          hfresh r hr with h1 | h1
      · exact ih r h1
      · rw [h1.2]
        simp
    | join store code password prof sid verify memberId now hre ih =>
      intro r hr
      rcases joinRoomHandler_mem store code password prof sid verify memberId now
          r hr with h1 | ⟨room, hmem, heq⟩
      · exact ih r h1
      · rw [heq, upsertMemberRoom_canvasData]
        exact ih room hmem
    | strokeEv store codeParam roomCode stroke freshId now hre ih =>
      intro r hr
      rcases strokeHandler_mem store codeParam roomCode stroke freshId now r hr with
        h1 | ⟨room, hmem, hmembers, hcd⟩
      · exact ih r h1
      · rw [hcd]
        exact ih room hmem
    | undoEv store codeParam roomCode strokeId now hre ih =>
      intro r hr
      rcases undoHandler_mem store codeParam roomCode strokeId now r hr with
        h1 | ⟨room, hmem, hmembers, hcd | hcd⟩
      · exact ih r h1
      · rw [hcd]
        exact ih room hmem
      · rw [hcd]
        simp
    | saveEv store code roomCode snapshot now hre ih =>
      intro r hr
      rcases saveSnapshotHandler_mem store code roomCode snapshot now r hr with
        h1 | ⟨room, trimmed, hmem, hmembers, hcd, hpre⟩
      · exact ih r h1
      · rw [hcd]
        intro hcontra
        rw [Option.some.inj hcontra] at hpre
        exact absurd hpre (by decide)
    | disconnectEv store sid now hre ih =>
      exact disconnectHandler_preserves (fun r => r.canvasData ≠ some "")
        (fun room sid2 now2 hc => by
          simpa only [removeMemberRoom_canvasData] using hc)
        store sid now ih
  · intro store code roomCode sid room hroom
    refine ⟨?_, ?_, ?_⟩
    · intro d hd hdne
      have ht : jsTruthyStr (some d) = true := by
        simp [jsTruthyStr, hdne]
      unfold requestSnapshotHandler
      rw [hroom]
      simp [hd, ht]
    · intro hnone hne
      have ht : jsTruthyStr room.canvasData = false := by
        rw [hnone]
        rfl
      unfold requestSnapshotHandler
      rw [hroom]
      simp [ht, List.length_pos.mpr hne]
    · intro hnone hnil
      have ht : jsTruthyStr room.canvasData = false := by
        rw [hnone]
        rfl
      unfold requestSnapshotHandler
      rw [hroom]
      simp [ht, hnil]
  · intro store code password prof sid verify memberId now room hfind hsucc
    have hrun : joinRoomHandler store code password prof sid verify memberId now =
        joinBody store room code prof sid memberId now := by
      cases hpw : jsTruthyStr room.passwordHash with
      | false => simp [joinRoomHandler, hfind, hpw]
      | true =>
        rcases hsucc with hpw2 | hv
        · rw [hpw] at hpw2
          exact absurd hpw2 (by simp)
        · simp [joinRoomHandler, hfind, hpw, hv]
    rw [hrun]
    refine ⟨?_, ?_, ?_⟩
    · intro d hd hdne
      have ht : jsTruthyStr (some d) = true := by
        simp [jsTruthyStr, hdne]
      simp [joinBody, emitMembersEvent, hd, ht]
    · intro hnone hne
      have ht : jsTruthyStr room.canvasData = false := by
        rw [hnone]
        rfl
      simp [joinBody, emitMembersEvent, ht, List.length_pos.mpr hne]
    · intro hnone hnil
      have ht : jsTruthyStr room.canvasData = false := by
        rw [hnone]
        rfl
      simp [joinBody, emitMembersEvent, ht, hnil]

/-- Witness for C7: the three recovery shapes on concrete rooms, and the
empty-string invariant on a concrete reachable store. -/
theorem c7_witness :
    (∀ r ∈ c1Store, r.canvasData ≠ some "") ∧
    requestSnapshotHandler [c7RoomSnap] (some "c7snap") none "sock" =
      [OutEvent.canvasSnapshot "sock" "\x7bdata"] ∧
    requestSnapshotHandler [c7RoomHist] (some "c7hist") none "sock" =
      [OutEvent.canvasHistory "sock" c7RoomHist.history] ∧
    requestSnapshotHandler [c7RoomNone] (some "c7none") none "sock" = [] := by
  have hre : Reachable c1Store :=
    Reachable.join _ "roomx" none profB "sock2" (fun _ _ => true) "m2" 30
      (Reachable.disconnectEv _ "sock1" 20
        (Reachable.create [] none profA "sock1" (fun _ => "") "roomx" "m1" 10
          Reachable.init (by simp)))
  refine ⟨c7_snapshot_priority.1 c1Store hre, ?_, ?_, ?_⟩
  · exact (c7_snapshot_priority.2.1 [c7RoomSnap] (some "c7snap") none "sock"
      c7RoomSnap (by decide)).1 "\x7bdata" (by decide) (by decide)
  · exact (c7_snapshot_priority.2.1 [c7RoomHist] (some "c7hist") none "sock"
      c7RoomHist (by decide)).2.1 (by decide) (by decide)
  · exact (c7_snapshot_priority.2.1 [c7RoomNone] (some "c7none") none "sock"
      c7RoomNone (by decide)).2.2 (by decide) (by decide)

/-- Counterexample for C2: `upsertMember` on a room with no members (hence
no host) and a payload carrying `isHost: false` — exactly what `join-room`
sends — creates a non-host member, although no existing member is host. -/
theorem c2_counterexample :
    (c2Room.members.any (fun m => m.isHost)) = false ∧
    ((upsertMemberRoom c2Room c2Payload "m9" 5).1).isHost = false ∧
    (((joinRoomHandler [c2Room] "c2room" none profB "sock9" (fun _ _ => true) "m9" 5).1).map
      (fun r => r.members.map (fun m => m.isHost))) = [[false]] := by
  exact ⟨by decide, by decide, by decide⟩

/-- C2 (amended): a member newly created by `upsertMember` takes the
payload's `isHost` boolean when one is supplied, and only in its absence
becomes host iff no existing member is host; since `join-room` always
supplies `isHost: false`, a joiner is created non-host even in a hostless
room, and its acknowledgment reports `isHost: false`. -/
theorem c2_upsert_isHost :
    (∀ (room : Room) (payload : MemberPayload) (memberId : String) (now : Nat),
      room.members.find? (fun m => m.socketId == payload.socketId) = none →
      ((upsertMemberRoom room payload memberId now).1).isHost =
        (match payload.isHost with
         | some b => b
         | none => !(room.members.any (fun m => m.isHost)))) ∧
    (∀ (store : List Room) (code : String) (password : Option String)
       (prof : NormProfile) (sid : String) (verify : String → String → Bool)
       (memberId : String) (now : Nat) (room : Room),
      store.find? (fun r => r.code == code) = some room →
      room.members.find? (fun m => m.socketId == sid) = none →
      ∀ rc ih mems self,
        (joinRoomHandler store code password prof sid verify memberId now).2.1 =
          Ack.ok rc ih mems self →
        ih = false) := by
  constructor
  · intro room payload memberId now hnew
    simp [upsertMemberRoom, hnew, newMemberFrom]
  · intro store code password prof sid verify memberId now room hfind hnone rc ih mems self hack
    have hup : (upsertMember store code
        { socketId := sid
          clientId := prof.clientId
          displayName := prof.displayName
          avatar := prof.avatar
          isHost := some false } memberId now).1 =
        some (newMemberFrom room
          { socketId := sid
            clientId := prof.clientId
            displayName := prof.displayName
            avatar := prof.avatar
            isHost := some false } memberId now) := by
      simp [upsertMember, hfind, upsertMemberRoom, hnone]
    have hnm : (newMemberFrom room
        { socketId := sid
          clientId := prof.clientId
          displayName := prof.displayName
          avatar := prof.avatar
          isHost := some false } memberId now).isHost = false := by
      simp [newMemberFrom]
    cases hpw : jsTruthyStr room.passwordHash with
    | false =>
      simp [joinRoomHandler, hfind, hpw, joinBody, hup, hnm] at hack
      exact hack.2.1
    | true =>
      cases hv : verify (jsStrOr password "") (room.passwordHash.getD "") with
      | false => simp [joinRoomHandler, hfind, hpw, hv] at hack
      | true =>
        simp [joinRoomHandler, hfind, hpw, hv, joinBody, hup, hnm] at hack
        exact hack.2.1

/-- Witness for C2's amended theorem: a fresh socket joining the concrete
empty room is created non-host. -/
theorem c2_witness :
    ((upsertMemberRoom c2Room c2Payload "m9" 5).1).isHost =
      (match c2Payload.isHost with
       | some b => b
       | none => !(c2Room.members.any (fun m => m.isHost))) := by
  exact c2_upsert_isHost.1 c2Room c2Payload "m9" 5 (by decide)

/-- C8: `join-room` on a code naming no live room acknowledges failure
with `"Room not found"`; on a password-protected room whose (non-empty)
stored hash the supplied password — defaulted to the empty string — fails
to verify, it acknowledges `"Invalid password"`; in both cases the store
is unchanged and no event is emitted. -/
theorem c8_join_failures :
    (∀ (store : List Room) (code : String) (password : Option String)
       (prof : NormProfile) (sid : String) (verify : String → String → Bool)
       (memberId : String) (now : Nat),
      store.find? (fun r => r.code == code) = none →
      joinRoomHandler store code password prof sid verify memberId now =
        (store, Ack.failure "Room not found", [])) ∧
    (∀ (store : List Room) (code : String) (password : Option String)
       (prof : NormProfile) (sid : String) (verify : String → String → Bool)
       (memberId : String) (now : Nat) (room : Room) (h : String),
      store.find? (fun r => r.code == code) = some room →
      room.passwordHash = some h → h ≠ "" →
      verify (jsStrOr password "") h = false →
      joinRoomHandler store code password prof sid verify memberId now =
        (store, Ack.failure "Invalid password", [])) := by
  constructor
  · intro store code password prof sid verify memberId now hfind
    simp [joinRoomHandler, hfind]
  · intro store code password prof sid verify memberId now room h hfind hpw hne hv
    have ht : jsTruthyStr room.passwordHash = true := by simp [jsTruthyStr, hpw, hne]
    have hg : room.passwordHash.getD "" = h := by simp [hpw]
    simp [joinRoomHandler, hfind, ht, hg, hv]

/-- Witness for C8 on the concrete protected room: a never-issued code and
a wrong password each fail with the exact error and leave the store alone. -/
theorem c8_witness :
    joinRoomHandler [c8Room] "zz" none profA "s" c8Verify "m" 1 =
      ([c8Room], Ack.failure "Room not found", []) ∧
    joinRoomHandler [c8Room] "c8room" (some "wrong") profA "s" c8Verify "m" 1 =
      ([c8Room], Ack.failure "Invalid password", []) := by
  constructor
  · exact c8_join_failures.1 [c8Room] "zz" none profA "s" c8Verify "m" 1 (by decide)
  · exact c8_join_failures.2 [c8Room] "c8room" (some "wrong") profA "s" c8Verify "m" 1
      c8Room "HASH" (by decide) (by decide) (by decide) (by decide)

/-- Witness for C4's amended theorem at the concrete empty-points stroke. -/
theorem c4_witness :
    isValidStroke (some c4Stroke) = true ∧
    (strokeHandler [c4Room] (some "c4room") none (some c4Stroke) "fresh" 9).2 =
      [OutEvent.canvasStroke (jsStrOr (jsOrStrOpt (some "c4room") none) "")
        (normalizeStroke c4Stroke "fresh" 9)] ∧
    ∃ room',
      getRoomOpt (strokeHandler [c4Room] (some "c4room") none (some c4Stroke) "fresh" 9).1
        (jsOrStrOpt (some "c4room") none) = some room' ∧
      room'.history.getLast? = some (normalizeStroke c4Stroke "fresh" 9) :=
  c4_empty_points_accepted c4Stroke [c4Room] (some "c4room") none "fresh" 9 c4Room
    (by decide) (by decide) (by decide) (by decide) (by decide)

end SharedCanva
